import Mathlib

/-!
# chunk-vault: splitting, storing and reassembling files

A shallow embedding of `service.go` (package `main` of SlideSolo/chunk-vault)
and the properties of its upload / download / addServer handlers.

Conventions of the embedding

* Go `int` values are Lean `Int`s.  The only arithmetic of the program is
  `len(fileBytes) + n - 1`, `i * partSize`, `(i + 1) * partSize` with
  `0 ≤ i < n`, and `currentNumStorageServers += 1`.  The first group of
  definitions computes them exactly; the products stay below
  `len(fileBytes) + n` (`splitFile_values_bounded`), so this is what the code
  does as long as that sum fits a machine word.  The second group
  (`Service.splitFileInt64`, `UploadHandlerInt64`, `AddServerHandlerInt64`)
  wraps every result to 64 bits as Go does; `splitFileInt64_eq`,
  `UploadHandlerInt64_eq` and `AddServerHandlerInt64_eq` relate the two.
* `[]byte` is `List Byte`; a nil slice and an empty slice are both `[]`.
* A Go runtime panic is the `error` side of `Except RuntimePanic`.
* The package-level `FilePartsMap.m` is a finite map seen as a lookup function.
* `http.ResponseWriter` is a recorder of what the handler sent, together with a
  flag telling whether the connection accepts body writes.
-/

namespace ChunkVault

/-! ## Data model -/

/-- One octet of a file. -/
abbrev Byte := Fin 256

/-- The run-time panics `service.go` can raise. -/
inductive RuntimePanic where
  /-- Integer division by zero ("runtime error: integer divide by zero"). -/
  | integerDivideByZero
  /-- Slice expression `b[low:high]` out of range
      ("runtime error: slice bounds out of range"). -/
  | sliceBoundsOutOfRange (low high : Int)
  deriving DecidableEq, Repr

/-- Go `type FilePart struct { Index int; Data []byte }`. -/
structure FilePart where
  Index : Int
  Data : List Byte
  deriving DecidableEq, Repr

/-- One call of `metrics.IncApiRequestsCount(method, endpoint, status)`. -/
structure ApiRequest where
  method : String
  endpoint : String
  status : String
  deriving DecidableEq, Repr

/-- The mutable part of `type Service struct`: `cfg` is only read by `Run` and
`logger` is a write-only sink, so neither is kept.  `metrics` is the log of the
counter increments made so far. -/
structure Service where
  metrics : List ApiRequest
  storageServers : List String
  currentNumStorageServers : Int

/-- The process state the handlers work on: the service and the package-level
`FilePartsMap.m` (file name to parts; `none` when the key is absent). -/
structure World where
  s : Service
  FilePartsMap : String → Option (List FilePart)

/-! ## Go primitives used by the service -/

/-- Go integer division `a / b`: truncated quotient, panics when `b = 0`. -/
def goDiv (a b : Int) : Except RuntimePanic Int :=
  if b = 0 then .error .integerDivideByZero else .ok (Int.tdiv a b)

/-- Go slice expression `b[low:high]`: it panics unless
`0 ≤ low ≤ high ≤ cap(b)`.  The capacity is taken to be the length; the
service only ever asks for `high ≤ len(b)`, where a larger capacity changes
nothing. -/
def sliceExpr (b : List Byte) (low high : Int) : Except RuntimePanic (List Byte) :=
  if 0 ≤ low ∧ low ≤ high ∧ high ≤ (b.length : Int) then
    .ok ((b.drop low.toNat).take (high.toNat - low.toNat))
  else
    .error (.sliceBoundsOutOfRange low high)

/-- Map assignment `m[key] = value`. -/
def mapSet (m : String → Option (List FilePart)) (key : String) (value : List FilePart) :
    String → Option (List FilePart) :=
  fun k => if k = key then some value else m k

/-! ## splitFile / assembleFile / distributeFileParts -/

/-- The body of `for i := 0; i < n; i++ { ... }` in `splitFile`, run for the
`k` iterations that remain, `i` being the loop variable and `fileParts` the
slice built so far. -/
def splitFileLoop (fileBytes : List Byte) (partSize : Int) :
    Nat → Int → List FilePart → Except RuntimePanic (List FilePart)
  | 0, _, fileParts => .ok fileParts
  | k + 1, i, fileParts =>
    let start := i * partSize
    let end0 := (i + 1) * partSize
    let end1 := if end0 > (fileBytes.length : Int) then (fileBytes.length : Int) else end0
    match sliceExpr fileBytes start end1 with
    | .error p => .error p
    | .ok data => splitFileLoop fileBytes partSize k (i + 1) (fileParts ++ [⟨i, data⟩])

/-- Go `func (s *Service) splitFile(fileBytes []byte) []FilePart`.
The loop `for i := 0; i < n; i++` makes `max n 0` iterations. -/
def Service.splitFile (s : Service) (fileBytes : List Byte) :
    Except RuntimePanic (List FilePart) :=
  match goDiv ((fileBytes.length : Int) + s.currentNumStorageServers - 1)
      s.currentNumStorageServers with
  | .error p => .error p
  | .ok partSize =>
    splitFileLoop fileBytes partSize (s.currentNumStorageServers - 0).toNat 0 []

/-- Go `func (s *Service) assembleFile(fileParts []FilePart) []byte`. -/
def Service.assembleFile (_s : Service) (fileParts : List FilePart) : List Byte :=
  fileParts.foldl (fun completeFile part => completeFile ++ part.Data) []

/-- The loop of `distributeFileParts`: one address appended per part, `i`
being the position of the first remaining part. -/
def distributeLoop : List FilePart → Nat → List String → List String
  | [], _, storageServers => storageServers
  | _ :: rest, i, storageServers =>
    distributeLoop rest (i + 1)
      (storageServers ++ ["http://localhost:900" ++ toString (i + 1)])

/-- Go `func (s *Service) distributeFileParts(fileName string, fileParts []FilePart)`:
the parts are only logged; the visible effect is the growth of
`s.storageServers`. -/
def Service.distributeFileParts (s : Service) (_fileName : String)
    (fileParts : List FilePart) : Service :=
  { s with storageServers := distributeLoop fileParts 0 s.storageServers }

/-! ## The HTTP side -/

/-- The bytes of a Go string (its UTF-8 encoding). -/
def strBytes (str : String) : List Byte :=
  (str.data.flatMap String.utf8EncodeChar).map UInt8.val

/-- What a handler has sent through its `http.ResponseWriter`: the header map,
the status line (`none` until it is written), the body so far, and whether the
connection refuses body writes (`Write` then reports an error). -/
structure ResponseWriter where
  header : List (String × String)
  status : Option Nat
  body : List Byte
  writeFails : Bool
  deriving DecidableEq, Repr

/-- The writer a handler receives: nothing sent yet. -/
def ResponseWriter.fresh (writeFails : Bool) : ResponseWriter :=
  ⟨[], none, [], writeFails⟩

/-- Go `w.Header().Set(key, value)`. -/
def ResponseWriter.setHeader (w : ResponseWriter) (key value : String) : ResponseWriter :=
  { w with header := (w.header.filter (fun kv => kv.1 != key)) ++ [(key, value)] }

/-- Go `w.Header().Get(key)`. -/
def ResponseWriter.getHeader (w : ResponseWriter) (key : String) : Option String :=
  (w.header.find? (fun kv => kv.1 == key)).map Prod.snd

/-- Go `w.WriteHeader(code)`: only the first call sets the status. -/
def ResponseWriter.WriteHeader (w : ResponseWriter) (code : Nat) : ResponseWriter :=
  match w.status with
  | some _ => w
  | none => { w with status := some code }

/-- Go `w.Write(data)`: sends status 200 first when no status was written, then
the data; the boolean is `err != nil`. -/
def ResponseWriter.Write (w : ResponseWriter) (data : List Byte) : ResponseWriter × Bool :=
  let w1 := w.WriteHeader 200
  if w1.writeFails then (w1, true) else ({ w1 with body := w1.body ++ data }, false)

/-- Go `http.Error(w, msg, code)`: plain-text headers, the status, then the
message followed by a newline. -/
def httpError (w : ResponseWriter) (msg : String) (code : Nat) : ResponseWriter :=
  let w1 := w.setHeader "Content-Type" "text/plain; charset=utf-8"
  let w2 := w1.setHeader "X-Content-Type-Options" "nosniff"
  let w3 := w2.WriteHeader code
  (w3.Write (strBytes (msg ++ "\n"))).1

/-- Go `s.metrics.IncApiRequestsCount(method, endpoint, status)`. -/
def Service.IncApiRequestsCount (s : Service) (method endpoint status : String) : Service :=
  { s with metrics := s.metrics ++ [⟨method, endpoint, status⟩] }

/-- What `r.FormFile("file")` followed by `io.ReadAll(file)` gives for an
upload request. -/
inductive UploadForm where
  /-- The call `r.FormFile` returned an error (no usable `file` field). -/
  | missing
  /-- The field exists under this file name but reading it failed. -/
  | unreadable (fileName : String)
  /-- The field exists under this file name with these bytes. -/
  | file (fileName : String) (fileBytes : List Byte)
  deriving DecidableEq, Repr

/-- Go `func (s *Service) UploadHandler(w http.ResponseWriter, r *http.Request)`.
A panic of `splitFile` leaves the handler before anything shared is written,
so the `error` side carries no new state: the world is still `wd`. -/
def UploadHandler (wd : World) (w : ResponseWriter) (r : UploadForm) :
    Except RuntimePanic (World × ResponseWriter) :=
  match r with
  | .missing =>
    .ok ({ wd with s := wd.s.IncApiRequestsCount "POST" "/upload" "400" },
         httpError w "Failed to read the uploaded file" 400)
  | .unreadable _ =>
    .ok ({ wd with s := wd.s.IncApiRequestsCount "POST" "/upload" "500" },
         httpError w "Failed to read the file" 500)
  | .file fileName fileBytes =>
    match wd.s.splitFile fileBytes with
    | .error p => .error p
    | .ok fileParts =>
      let m := mapSet wd.FilePartsMap fileName fileParts
      let s1 := wd.s.distributeFileParts fileName fileParts
      let s2 := s1.IncApiRequestsCount "POST" "/upload" "200"
      .ok (⟨s2, m⟩, w.WriteHeader 201)

/-- Go `func (s *Service) DownloadHandler(w http.ResponseWriter, r *http.Request)`;
`fileName` is `r.URL.Query().Get("file")`, the empty string when the parameter
is absent. -/
def DownloadHandler (wd : World) (w : ResponseWriter) (fileName : String) :
    World × ResponseWriter :=
  if fileName = "" then
    ({ wd with s := wd.s.IncApiRequestsCount "GET" "/download" "400" },
     httpError w "Please provide the 'file' parameter" 400)
  else
    match wd.FilePartsMap fileName with
    | none =>
      ({ wd with s := wd.s.IncApiRequestsCount "GET" "/download" "404" },
       httpError w "File not found" 404)
    | some fileParts =>
      let completeFile := wd.s.assembleFile fileParts
      let w1 := w.setHeader "Content-Disposition"
        ("attachment; filename=\"" ++ fileName ++ "\"")
      match w1.Write completeFile with
      | (w2, true) =>
        ({ wd with s := wd.s.IncApiRequestsCount "GET" "/download" "500" },
         httpError w2 "Failed to send the file" 500)
      | (w2, false) =>
        ({ wd with s := wd.s.IncApiRequestsCount "GET" "/download" "200" }, w2)

/-- Go `type AddServerRequest struct { Address string }`. -/
structure AddServerRequest where
  Address : String
  deriving DecidableEq, Repr

/-- What `AddServerHandler` reads of its request: the method and the outcome
of `io.ReadAll(r.Body)` (`none` when reading fails). -/
structure AddServerHTTP where
  Method : String
  Body : Option (List Byte)
  deriving DecidableEq, Repr

/-- Go `func (s *Service) AddServerHandler(w http.ResponseWriter, r *http.Request)`.
`unmarshal` stands for `json.Unmarshal(body, &newServerAddr)` of the standard
library: `none` when it returns an error. -/
def AddServerHandler (unmarshal : List Byte → Option AddServerRequest)
    (wd : World) (w : ResponseWriter) (r : AddServerHTTP) : World × ResponseWriter :=
  if r.Method ≠ "POST" then
    ({ wd with s := wd.s.IncApiRequestsCount "POST" "/addServer" "405" },
     httpError w "Invalid request method. POST method is required." 405)
  else
    match r.Body with
    | none =>
      ({ wd with s := wd.s.IncApiRequestsCount "POST" "/addServer" "500" },
       httpError w "Failed to read request body" 500)
    | some body =>
      match unmarshal body with
      | none =>
        ({ wd with s := wd.s.IncApiRequestsCount "POST" "/addServer" "400" },
         httpError w "Failed to unmarshal request body" 400)
      | some newServerAddr =>
        let s1 : Service :=
          { wd.s with
            storageServers := wd.s.storageServers ++ [newServerAddr.Address]
            currentNumStorageServers := wd.s.currentNumStorageServers + 1 }
        let w1 := w.WriteHeader 201
        ({ wd with s := s1.IncApiRequestsCount "POST" "/addServer" "200" }, w1)


/-! ## The same code on 64-bit machine integers

Go's `int` is a 64-bit two's-complement integer on the platforms the service
runs on, and its `+`, `-` and `*` wrap around silently.  The definitions below
repeat `splitFile`, `UploadHandler` and `AddServerHandler` with every
arithmetic result wrapped; `splitFileInt64_eq` and its companions show that
they agree with the exact ones whenever `len(fileBytes) + n - 1` fits. -/

/-- The largest Go `int` (`math.MaxInt64`). -/
def maxInt64 : Int := 9223372036854775807

/-- The smallest Go `int` (`math.MinInt64`). -/
def minInt64 : Int := -9223372036854775808

/-- The 64-bit two's-complement value of an exact integer result. -/
def wrapInt64 (x : Int) : Int :=
  (x + 9223372036854775808) % 18446744073709551616 - 9223372036854775808

/-- Go integer division `a / b` on `int`: truncated quotient, panics when
`b = 0`. -/
def goDivInt64 (a b : Int) : Except RuntimePanic Int :=
  if b = 0 then .error .integerDivideByZero else .ok (wrapInt64 (Int.tdiv a b))

/-- The `start` of iteration `i` of the loop of `splitFile`: `i * partSize`. -/
def loopStart (partSize i : Int) : Int :=
  wrapInt64 (i * partSize)

/-- The `end` of iteration `i` of the loop of `splitFile`:
`(i + 1) * partSize`, replaced by `len(fileBytes)` when it is larger. -/
def loopEnd (len partSize i : Int) : Int :=
  let end0 := wrapInt64 (wrapInt64 (i + 1) * partSize)
  if end0 > len then len else end0

/-- The loop of `splitFile` on machine integers, run for the `k` iterations
that remain. -/
def splitFileLoopInt64 (fileBytes : List Byte) (partSize : Int) :
    Nat → Int → List FilePart → Except RuntimePanic (List FilePart)
  | 0, _, fileParts => .ok fileParts
  | k + 1, i, fileParts =>
    match sliceExpr fileBytes (loopStart partSize i)
        (loopEnd (fileBytes.length : Int) partSize i) with
    | .error p => .error p
    | .ok data =>
      splitFileLoopInt64 fileBytes partSize k (wrapInt64 (i + 1)) (fileParts ++ [⟨i, data⟩])

/-- Go `func (s *Service) splitFile(fileBytes []byte) []FilePart` on machine
integers.  The loop `for i := 0; i < n; i++` makes `max n 0` iterations. -/
def Service.splitFileInt64 (s : Service) (fileBytes : List Byte) :
    Except RuntimePanic (List FilePart) :=
  match goDivInt64
      (wrapInt64 (wrapInt64 ((fileBytes.length : Int) + s.currentNumStorageServers) - 1))
      s.currentNumStorageServers with
  | .error p => .error p
  | .ok partSize =>
    splitFileLoopInt64 fileBytes partSize (s.currentNumStorageServers - 0).toNat 0 []

/-- Go `func (s *Service) UploadHandler(w http.ResponseWriter, r *http.Request)`
with `splitFile` on machine integers. -/
def UploadHandlerInt64 (wd : World) (w : ResponseWriter) (r : UploadForm) :
    Except RuntimePanic (World × ResponseWriter) :=
  match r with
  | .missing =>
    .ok ({ wd with s := wd.s.IncApiRequestsCount "POST" "/upload" "400" },
         httpError w "Failed to read the uploaded file" 400)
  | .unreadable _ =>
    .ok ({ wd with s := wd.s.IncApiRequestsCount "POST" "/upload" "500" },
         httpError w "Failed to read the file" 500)
  | .file fileName fileBytes =>
    match wd.s.splitFileInt64 fileBytes with
    | .error p => .error p
    | .ok fileParts =>
      let m := mapSet wd.FilePartsMap fileName fileParts
      let s1 := wd.s.distributeFileParts fileName fileParts
      let s2 := s1.IncApiRequestsCount "POST" "/upload" "200"
      .ok (⟨s2, m⟩, w.WriteHeader 201)

/-- Go `func (s *Service) AddServerHandler(w http.ResponseWriter, r *http.Request)`
with `s.currentNumStorageServers += 1` on machine integers.  `unmarshal`
stands for `json.Unmarshal(body, &newServerAddr)` of the standard library:
`none` when it returns an error. -/
def AddServerHandlerInt64 (unmarshal : List Byte → Option AddServerRequest)
    (wd : World) (w : ResponseWriter) (r : AddServerHTTP) : World × ResponseWriter :=
  if r.Method ≠ "POST" then
    ({ wd with s := wd.s.IncApiRequestsCount "POST" "/addServer" "405" },
     httpError w "Invalid request method. POST method is required." 405)
  else
    match r.Body with
    | none =>
      ({ wd with s := wd.s.IncApiRequestsCount "POST" "/addServer" "500" },
       httpError w "Failed to read request body" 500)
    | some body =>
      match unmarshal body with
      | none =>
        ({ wd with s := wd.s.IncApiRequestsCount "POST" "/addServer" "400" },
         httpError w "Failed to unmarshal request body" 400)
      | some newServerAddr =>
        let s1 : Service :=
          { wd.s with
            storageServers := wd.s.storageServers ++ [newServerAddr.Address]
            currentNumStorageServers := wrapInt64 (wd.s.currentNumStorageServers + 1) }
        let w1 := w.WriteHeader 201
        ({ wd with s := s1.IncApiRequestsCount "POST" "/addServer" "200" }, w1)

/-! ## The layout `splitFile` builds -/

/-- The part size `splitFile` computes for `len` bytes and `n ≥ 1` nodes. -/
def partSizeNat (len n : Nat) : Nat := (len + n - 1) / n

/-- The byte range `[start, end)` of part `j` for a part size `p` in a file of
`len` bytes, as `splitFile` computes it: `start = j * p` and
`end = min ((j + 1) * p) len`. -/
def partRange (len p j : Nat) : Nat × Nat :=
  (j * p, min ((j + 1) * p) len)

/-- The part `splitFile` builds at position `j` when its slice is in range. -/
def partAt (fileBytes : List Byte) (p j : Nat) : FilePart :=
  ⟨(j : Int),
   (fileBytes.drop (partRange fileBytes.length p j).1).take
     ((partRange fileBytes.length p j).2 - (partRange fileBytes.length p j).1)⟩

/-- The parts at positions `j, j + 1, ..., j + k - 1`. -/
def partsFrom (fileBytes : List Byte) (p j : Nat) : Nat → List FilePart
  | 0 => []
  | k + 1 => partAt fileBytes p j :: partsFrom fileBytes p (j + 1) k

/-! ## Sample inputs -/

/-- A service with `n` nodes and nothing else recorded. -/
def serviceWith (n : Int) : Service := ⟨[], [], n⟩

/-- A world with `n` nodes and no stored file. -/
def emptyWorld (n : Int) : World := ⟨serviceWith n, fun _ => none⟩

/-- The ten bytes `0, 1, ..., 9`. -/
def tenBytes : List Byte := [0, 1, 2, 3, 4, 5, 6, 7, 8, 9]

/-- The map of the "File Found" case of `TestDownloadHandler`. -/
def exampleWorld : World :=
  ⟨serviceWith 6, mapSet (fun _ => none) "example.txt" [⟨0, [1, 2, 3]⟩, ⟨0, [4, 5]⟩]⟩

/-- A two-node world holding an older layout of `a.txt`. -/
def oldWorld : World :=
  ⟨serviceWith 2, mapSet (fun _ => none) "a.txt" [⟨0, [9]⟩, ⟨1, []⟩]⟩

/-- The request body with the JSON object whose `address` is `:9003`. -/
def addressBody : List Byte := strBytes "\x7b\"address\":\":9003\"\x7d"

/-- What `json.Unmarshal` answers on `addressBody`, and an error elsewhere. -/
def decodeAddressBody : List Byte → Option AddServerRequest :=
  fun body => if body = addressBody then some ⟨":9003"⟩ else none

/-- A world with the largest node count an `int` holds and an older layout of
`a.txt`. -/
def fullWorld : World :=
  ⟨serviceWith maxInt64, mapSet (fun _ => none) "a.txt" [⟨0, [9]⟩]⟩

/-! ## Lemmas on slices and on the loop -/

theorem sliceExpr_ok (b : List Byte) (lo hi : Nat) (h1 : lo ≤ hi) (h2 : hi ≤ b.length) :
    sliceExpr b (lo : Int) (hi : Int) = .ok ((b.drop lo).take (hi - lo)) := by
  unfold sliceExpr
  rw [if_pos]
  · simp
  · omega

theorem sliceExpr_error (b : List Byte) (lo hi : Int) (h : hi < lo) :
    sliceExpr b lo hi = .error (.sliceBoundsOutOfRange lo hi) := by
  unfold sliceExpr
  rw [if_neg]
  omega

theorem clampEnd_eq (len p j : Nat) :
    (if (((j : Int) + 1) * (p : Int)) > (len : Int) then (len : Int)
      else ((j : Int) + 1) * (p : Int)) = ((min ((j + 1) * p) len : Nat) : Int) := by
  have h : (((j : Int) + 1) * (p : Int)) = (((j + 1) * p : Nat) : Int) := by push_cast; ring
  rw [h]
  split_ifs with hc
  · have : len ≤ (j + 1) * p := by omega
    rw [Nat.min_eq_right this]
  · have : (j + 1) * p ≤ len := by omega
    rw [Nat.min_eq_left this]

/-- One iteration of the loop whose start is inside the file. -/
theorem splitFileLoop_step_ok (b : List Byte) (p j k : Nat) (acc : List FilePart)
    (h : j * p ≤ b.length) :
    splitFileLoop b (p : Int) (k + 1) (j : Int) acc =
      splitFileLoop b (p : Int) k ((j + 1 : Nat) : Int) (acc ++ [partAt b p j]) := by
  have hs : ((j : Int) * (p : Int)) = ((j * p : Nat) : Int) := by push_cast; ring
  have hle : j * p ≤ min ((j + 1) * p) b.length := by
    have : j * p ≤ (j + 1) * p := Nat.mul_le_mul_right p (Nat.le_succ j)
    exact Nat.le_min.mpr ⟨this, h⟩
  simp only [splitFileLoop]
  rw [clampEnd_eq, hs, sliceExpr_ok b _ _ hle (Nat.min_le_right _ _)]
  simp [partAt, partRange]

/-- One iteration of the loop whose start is beyond the file. -/
theorem splitFileLoop_step_error (b : List Byte) (p j k : Nat) (acc : List FilePart)
    (h : b.length < j * p) :
    splitFileLoop b (p : Int) (k + 1) (j : Int) acc =
      .error (.sliceBoundsOutOfRange ((j : Int) * (p : Int)) (b.length : Int)) := by
  have hs : ((j : Int) * (p : Int)) = ((j * p : Nat) : Int) := by push_cast; ring
  have hle : b.length ≤ (j + 1) * p := by
    have : j * p ≤ (j + 1) * p := Nat.mul_le_mul_right p (Nat.le_succ j)
    omega
  simp only [splitFileLoop]
  rw [clampEnd_eq, Nat.min_eq_right hle, sliceExpr_error]
  rw [hs]; omega

/-- When every start is inside the file the loop returns all its parts. -/
theorem splitFileLoop_ok (b : List Byte) (p : Nat) :
    ∀ (k j : Nat) (acc : List FilePart), (∀ t, t < k → (j + t) * p ≤ b.length) →
      splitFileLoop b (p : Int) k (j : Int) acc = .ok (acc ++ partsFrom b p j k) := by
  intro k
  induction k with
  | zero => intro j acc _; simp [splitFileLoop, partsFrom]
  | succ k ih =>
    intro j acc h
    rw [splitFileLoop_step_ok b p j k acc (by simpa using h 0 (Nat.succ_pos k))]
    rw [ih (j + 1) _ (fun t ht => by
      have := h (t + 1) (by omega)
      rwa [show j + 1 + t = j + (t + 1) by omega])]
    simp [partsFrom]

/-- When some start is beyond the file the loop panics at the first such
iteration, with `start > end = len(fileBytes)`. -/
theorem splitFileLoop_error (b : List Byte) (p : Nat) :
    ∀ (k j : Nat) (acc : List FilePart), (∃ t, t < k ∧ b.length < (j + t) * p) →
      ∃ t, t < k ∧ b.length < (j + t) * p ∧
        splitFileLoop b (p : Int) k (j : Int) acc =
          .error (.sliceBoundsOutOfRange (((j + t : Nat) : Int) * (p : Int)) (b.length : Int)) := by
  intro k
  induction k with
  | zero => intro j acc h; obtain ⟨t, ht, _⟩ := h; omega
  | succ k ih =>
    intro j acc h
    by_cases hj : b.length < j * p
    · exact ⟨0, Nat.succ_pos k, by simpa using hj, by
        simpa using splitFileLoop_step_error b p j k acc hj⟩
    · obtain ⟨t, ht, hlt⟩ := h
      have ht0 : t ≠ 0 := by
        rintro rfl
        exact hj (by simpa using hlt)
      obtain ⟨u, hu, hul, he⟩ := ih (j + 1) (acc ++ [partAt b p j])
        ⟨t - 1, by omega, by rwa [show j + 1 + (t - 1) = j + t by omega]⟩
      refine ⟨u + 1, by omega, by rwa [show j + (u + 1) = j + 1 + u by omega], ?_⟩
      rw [splitFileLoop_step_ok b p j k acc (by omega), he,
        show j + (u + 1) = j + 1 + u by omega]

theorem partSizeNat_mul_ge (len n : Nat) (h1 : 1 ≤ n) : len ≤ n * partSizeNat len n := by
  unfold partSizeNat
  have h := Nat.div_add_mod (len + n - 1) n
  have hm := Nat.mod_lt (len + n - 1) (show 0 < n by omega)
  generalize (len + n - 1) / n = q at *
  generalize (len + n - 1) % n = r at *
  have : n * q + n = n * q + n := rfl
  omega

theorem partSizeNat_mul_le (len n : Nat) : n * partSizeNat len n ≤ len + n - 1 := by
  unfold partSizeNat
  exact Nat.mul_div_le _ _

/-- Every product `splitFile` forms for `n ≥ 1` nodes stays below `len + n`. -/
theorem splitFile_values_bounded (len n t : Nat) (ht : t < n) :
    t * partSizeNat len n ≤ len + n - 1 ∧ (t + 1) * partSizeNat len n ≤ len + n - 1 := by
  have h := partSizeNat_mul_le len n
  have h1 : (t + 1) * partSizeNat len n ≤ n * partSizeNat len n :=
    Nat.mul_le_mul_right _ (by omega)
  have h2 : t * partSizeNat len n ≤ (t + 1) * partSizeNat len n :=
    Nat.mul_le_mul_right _ (by omega)
  omega

/-- The part size is the ceiling of `len / n`. -/
theorem ceil_eq_partSizeNat (len n : Nat) (h1 : 1 ≤ n) :
    ⌈((len : ℚ) / (n : ℚ))⌉ = (partSizeNat len n : Int) := by
  have hge := partSizeNat_mul_ge len n h1
  have hle := partSizeNat_mul_le len n
  have hn : (0 : ℚ) < (n : ℚ) := by exact_mod_cast h1
  rw [Int.ceil_eq_iff]
  constructor
  · rw [lt_div_iff₀ hn]
    have : partSizeNat len n * n < len + n := by
      rw [Nat.mul_comm]; omega
    have h2 : ((partSizeNat len n * n : Nat) : ℚ) < ((len + n : Nat) : ℚ) := by exact_mod_cast this
    push_cast at h2 ⊢
    linarith
  · rw [div_le_iff₀ hn]
    have h2 : ((len : Nat) : ℚ) ≤ ((n * partSizeNat len n : Nat) : ℚ) := by exact_mod_cast hge
    push_cast at h2 ⊢
    linarith

/-- With `n ≥ 1` nodes `splitFile` is its loop run `n` times from `i = 0`
with the ceiling part size. -/
theorem splitFile_eq_loop (s : Service) (b : List Byte) (n : Nat)
    (hn : s.currentNumStorageServers = (n : Int)) (h1 : 1 ≤ n) :
    s.splitFile b = splitFileLoop b (partSizeNat b.length n : Int) n ((0 : Nat) : Int) [] := by
  have hnum : ((b.length : Int) + (n : Int) - 1) = ((b.length + n - 1 : Nat) : Int) := by omega
  have hdiv : Int.tdiv ((b.length + n - 1 : Nat) : Int) (n : Int)
      = (((b.length + n - 1) / n : Nat) : Int) := rfl
  have hne : ¬ ((n : Int) = 0) := by omega
  unfold Service.splitFile goDiv
  rw [hn, if_neg hne, hnum, hdiv]
  simp [partSizeNat]

/-- All starts are inside the file exactly when the last one is. -/
theorem starts_fit_iff (len p n : Nat) (h1 : 1 ≤ n) :
    (∀ t, t < n → (0 + t) * p ≤ len) ↔ (n - 1) * p ≤ len := by
  constructor
  · intro h
    simpa using h (n - 1) (by omega)
  · intro h t ht
    have : t * p ≤ (n - 1) * p := Nat.mul_le_mul_right p (by omega)
    simpa using le_trans this h

theorem length_partsFrom (b : List Byte) (p : Nat) :
    ∀ (k j : Nat), (partsFrom b p j k).length = k := by
  intro k
  induction k with
  | zero => intro j; rfl
  | succ k ih => intro j; simp [partsFrom, ih]

theorem getElem?_partsFrom (b : List Byte) (p : Nat) :
    ∀ (k j i : Nat), i < k → (partsFrom b p j k)[i]? = some (partAt b p (j + i)) := by
  intro k
  induction k with
  | zero => intro j i h; omega
  | succ k ih =>
    intro j i h
    cases i with
    | zero => simp [partsFrom]
    | succ i =>
      simp only [partsFrom, List.getElem?_cons_succ]
      rw [ih (j + 1) i (by omega), show j + 1 + i = j + (i + 1) by omega]

/-- The data of a part is the next `p` bytes after its start (fewer at the end
of the file). -/
theorem partAt_Data (b : List Byte) (p j : Nat) :
    (partAt b p j).Data = (b.drop (j * p)).take p := by
  simp only [partAt, partRange]
  have hs : (j + 1) * p = j * p + p := by ring
  by_cases h : (j + 1) * p ≤ b.length
  · rw [Nat.min_eq_left h, hs, Nat.add_sub_cancel_left]
  · have h2 : b.length ≤ (j + 1) * p := by omega
    rw [Nat.min_eq_right h2, List.take_of_length_le (by simp),
      List.take_of_length_le (by simp; omega)]

theorem partAt_Index (b : List Byte) (p j : Nat) : (partAt b p j).Index = (j : Int) := rfl

theorem flatten_partsFrom (b : List Byte) (p : Nat) :
    ∀ (k j : Nat), ((partsFrom b p j k).map FilePart.Data).flatten
      = (b.drop (j * p)).take (k * p) := by
  intro k
  induction k with
  | zero => intro j; simp [partsFrom]
  | succ k ih =>
    intro j
    simp only [partsFrom, List.map_cons, List.flatten_cons, ih, partAt_Data]
    rw [show (k + 1) * p = p + k * p by ring, List.take_add, List.drop_drop,
      show (j + 1) * p = j * p + p by ring]

/-- The function `assembleFile` concatenates the parts' data in list order. -/
theorem assembleFile_eq_flatten (s : Service) (parts : List FilePart) :
    s.assembleFile parts = (parts.map FilePart.Data).flatten := by
  unfold Service.assembleFile
  have h : ∀ (l : List FilePart) (acc : List Byte),
      l.foldl (fun completeFile part => completeFile ++ part.Data) acc
        = acc ++ (l.map FilePart.Data).flatten := by
    intro l
    induction l with
    | nil => intro acc; simp
    | cons x xs ih => intro acc; simp [ih]
  simpa using h parts []

/-- Reassembling all the parts gives the file back. -/
theorem assembleFile_partsFrom (s : Service) (b : List Byte) (n : Nat) (h1 : 1 ≤ n) :
    s.assembleFile (partsFrom b (partSizeNat b.length n) 0 n) = b := by
  rw [assembleFile_eq_flatten, flatten_partsFrom]
  have := partSizeNat_mul_ge b.length n h1
  simp only [Nat.zero_mul, List.drop_zero]
  exact List.take_of_length_le this

/-- The result of `splitFile` on `n ≥ 1` nodes when the last start fits. -/
theorem splitFile_of_fits (s : Service) (b : List Byte) (n : Nat)
    (hn : s.currentNumStorageServers = (n : Int)) (h1 : 1 ≤ n)
    (hfit : (n - 1) * partSizeNat b.length n ≤ b.length) :
    s.splitFile b = .ok (partsFrom b (partSizeNat b.length n) 0 n) := by
  rw [splitFile_eq_loop s b n hn h1,
    splitFileLoop_ok b _ n 0 [] ((starts_fit_iff _ _ n h1).mpr hfit)]
  simp

/-- The panic of `splitFile` on `n ≥ 1` nodes when the last start does not fit. -/
theorem splitFile_of_not_fits (s : Service) (b : List Byte) (n : Nat)
    (hn : s.currentNumStorageServers = (n : Int)) (h1 : 1 ≤ n)
    (hfit : b.length < (n - 1) * partSizeNat b.length n) :
    ∃ t, t < n ∧ b.length < t * partSizeNat b.length n ∧
      s.splitFile b = .error (.sliceBoundsOutOfRange
        ((t : Int) * (partSizeNat b.length n : Int)) (b.length : Int)) := by
  obtain ⟨t, ht, hlt, he⟩ := splitFileLoop_error b (partSizeNat b.length n) n 0 []
    ⟨n - 1, by omega, by simpa using hfit⟩
  refine ⟨t, ht, by simpa using hlt, ?_⟩
  rw [splitFile_eq_loop s b n hn h1, he]
  simp

/-- A node count `N ≥ 1` seen as a natural number, with the ceiling of
`len / N` and the condition "the last start fits" in their natural-number
forms. -/
theorem nodeCount_bridge (N : Int) (len : Nat) (hN : 1 ≤ N) :
    ∃ n : Nat, N = (n : Int) ∧ 1 ≤ n ∧
      ⌈((len : ℚ) / (N : ℚ))⌉ = (partSizeNat len n : Int) ∧
      ((N - 1) * ⌈((len : ℚ) / (N : ℚ))⌉ ≤ (len : Int) ↔ (n - 1) * partSizeNat len n ≤ len) := by
  obtain ⟨n, hn⟩ := Int.eq_ofNat_of_zero_le (show 0 ≤ N by omega)
  subst hn
  have h1 : 1 ≤ n := by omega
  have hc : ⌈((len : ℚ) / (((n : Nat) : Int) : ℚ))⌉ = (partSizeNat len n : Int) := by
    rw [Int.cast_natCast]
    exact ceil_eq_partSizeNat len n h1
  refine ⟨n, rfl, h1, hc, ?_⟩
  rw [hc]
  have hm : (((n : Nat) : Int) - 1) * (partSizeNat len n : Int)
      = (((n - 1) * partSizeNat len n : Nat) : Int) := by
    push_cast [Nat.cast_sub h1]
    ring
  rw [hm]
  exact Int.ofNat_le

theorem partSizeNat_zero (n : Nat) (h1 : 1 ≤ n) : partSizeNat 0 n = 0 := by
  unfold partSizeNat
  exact Nat.div_eq_of_lt (by omega)

theorem partSizeNat_of_dvd (len n : Nat) (h1 : 1 ≤ n) (hd : n ∣ len) :
    (n - 1) * partSizeNat len n ≤ len := by
  obtain ⟨q, rfl⟩ := hd
  have hle := partSizeNat_mul_le (n * q) n
  have hpq : partSizeNat (n * q) n ≤ q := by
    by_contra hlt
    have h2 : n * (q + 1) ≤ n * partSizeNat (n * q) n := Nat.mul_le_mul_left n (by omega)
    rw [Nat.mul_add] at h2
    omega
  calc (n - 1) * partSizeNat (n * q) n ≤ (n - 1) * q := Nat.mul_le_mul_left _ hpq
    _ ≤ n * q := Nat.mul_le_mul_right _ (by omega)

theorem partSizeNat_pos (len n : Nat) (h1 : 1 ≤ n) (hl : 0 < len) : 1 ≤ partSizeNat len n := by
  have := partSizeNat_mul_ge len n h1
  by_contra h
  have h0 : partSizeNat len n = 0 := by omega
  rw [h0] at this
  omega

theorem length_partAt_Data (b : List Byte) (p j : Nat) :
    (partAt b p j).Data.length = min p (b.length - j * p) := by
  rw [partAt_Data]; simp

/-- C10. Conditional round trip: with `N ≥ 1` nodes and a file of `L` bytes
such that `(N - 1) * ceil(L / N) ≤ L` (which holds in particular when `L = 0`
or when `N` divides `L`), `splitFile` returns `N` parts and `assembleFile` of
them is the file. -/
theorem splitFile_assembleFile_of_fits (s : Service) (fileBytes : List Byte)
    (hN : 1 ≤ s.currentNumStorageServers) :
    (fileBytes.length = 0 →
      (s.currentNumStorageServers - 1) *
        ⌈((fileBytes.length : ℚ) / (s.currentNumStorageServers : ℚ))⌉
          ≤ (fileBytes.length : Int)) ∧
    (s.currentNumStorageServers ∣ (fileBytes.length : Int) →
      (s.currentNumStorageServers - 1) *
        ⌈((fileBytes.length : ℚ) / (s.currentNumStorageServers : ℚ))⌉
          ≤ (fileBytes.length : Int)) ∧
    ((s.currentNumStorageServers - 1) *
        ⌈((fileBytes.length : ℚ) / (s.currentNumStorageServers : ℚ))⌉
          ≤ (fileBytes.length : Int) →
      ∃ parts, s.splitFile fileBytes = .ok parts ∧
        (parts.length : Int) = s.currentNumStorageServers ∧
        s.assembleFile parts = fileBytes) := by
  obtain ⟨n, hn, h1, _, hiff⟩ := nodeCount_bridge s.currentNumStorageServers fileBytes.length hN
  refine ⟨?_, ?_, ?_⟩
  · intro h0
    rw [hiff, h0, partSizeNat_zero n h1]
    simp
  · intro hd
    rw [hiff]
    rw [hn] at hd
    exact partSizeNat_of_dvd _ n h1 (Int.natCast_dvd_natCast.mp hd)
  · intro hfit
    refine ⟨_, splitFile_of_fits s fileBytes n hn h1 (hiff.mp hfit), ?_, ?_⟩
    · rw [length_partsFrom, hn]
    · exact assembleFile_partsFrom s fileBytes n h1

/-- C3, amended. Part sizes: with `N ≥ 1` nodes and a file of `L` bytes such
that `(N - 1) * ceil(L / N) ≤ L`, `splitFile` returns `N` parts; every part
but the last has exactly `ceil(L / N)` bytes, the last one has the remaining
`L - (N - 1) * ceil(L / N)` bytes, and the part at position `i` has index `i`
and holds the bytes from offset `i * ceil(L / N)` on. -/
theorem splitFile_part_sizes (s : Service) (fileBytes : List Byte)
    (hN : 1 ≤ s.currentNumStorageServers)
    (hfit : (s.currentNumStorageServers - 1) *
        ⌈((fileBytes.length : ℚ) / (s.currentNumStorageServers : ℚ))⌉
          ≤ (fileBytes.length : Int)) :
    ∃ parts, s.splitFile fileBytes = .ok parts ∧
      (parts.length : Int) = s.currentNumStorageServers ∧
      (∀ (i : Nat) (part : FilePart), parts[i]? = some part → i + 1 < parts.length →
        (part.Data.length : Int)
          = ⌈((fileBytes.length : ℚ) / (s.currentNumStorageServers : ℚ))⌉) ∧
      (∀ part : FilePart, parts.getLast? = some part →
        (part.Data.length : Int) = (fileBytes.length : Int) -
          (s.currentNumStorageServers - 1) *
            ⌈((fileBytes.length : ℚ) / (s.currentNumStorageServers : ℚ))⌉) ∧
      (∀ (i : Nat) (part : FilePart), parts[i]? = some part →
        part.Index = (i : Int) ∧
        part.Data = (fileBytes.drop
            (i * ⌈((fileBytes.length : ℚ) / (s.currentNumStorageServers : ℚ))⌉.toNat)).take
          ⌈((fileBytes.length : ℚ) / (s.currentNumStorageServers : ℚ))⌉.toNat) := by
  obtain ⟨n, hn, h1, hc, hiff⟩ := nodeCount_bridge s.currentNumStorageServers fileBytes.length hN
  have hfitN := hiff.mp hfit
  have hge := partSizeNat_mul_ge fileBytes.length n h1
  rw [hc]
  refine ⟨_, splitFile_of_fits s fileBytes n hn h1 hfitN, ?_, ?_, ?_, ?_⟩
  · rw [length_partsFrom, hn]
  · intro i part hget hi
    rw [length_partsFrom] at hi
    rw [getElem?_partsFrom _ _ n 0 i (by omega)] at hget
    obtain rfl := Option.some.inj hget
    rw [length_partAt_Data]
    have h2 : (0 + i + 1) * partSizeNat fileBytes.length n
        ≤ (n - 1) * partSizeNat fileBytes.length n := Nat.mul_le_mul_right _ (by omega)
    rw [Nat.add_mul, Nat.one_mul] at h2
    have : min (partSizeNat fileBytes.length n)
        (fileBytes.length - (0 + i) * partSizeNat fileBytes.length n)
        = partSizeNat fileBytes.length n := by omega
    rw [this]
  · intro part hlast
    rw [List.getLast?_eq_getElem?, length_partsFrom,
      getElem?_partsFrom _ _ n 0 (n - 1) (by omega)] at hlast
    obtain rfl := Option.some.inj hlast
    rw [length_partAt_Data, hn]
    have h3 : n * partSizeNat fileBytes.length n
        = (n - 1) * partSizeNat fileBytes.length n + partSizeNat fileBytes.length n := by
      generalize partSizeNat fileBytes.length n = q
      obtain ⟨m, rfl⟩ : ∃ m, n = m + 1 := ⟨n - 1, by omega⟩
      rw [Nat.add_sub_cancel, Nat.add_mul, Nat.one_mul]
    have hm : (((n : Nat) : Int) - 1) * (partSizeNat fileBytes.length n : Int)
        = (((n - 1) * partSizeNat fileBytes.length n : Nat) : Int) := by
      push_cast [Nat.cast_sub h1]
      ring
    rw [hm, Nat.zero_add]
    omega
  · intro i part hget
    have hi : i < n := by
      by_contra hge
      have hnone : (partsFrom fileBytes (partSizeNat fileBytes.length n) 0 n)[i]? = none :=
        List.getElem?_eq_none (by rw [length_partsFrom]; omega)
      rw [hnone] at hget
      exact Option.noConfusion hget
    rw [getElem?_partsFrom _ _ n 0 i hi] at hget
    obtain rfl := Option.some.inj hget
    rw [Nat.zero_add]
    exact ⟨partAt_Index _ _ _, by rw [partAt_Data]; simp⟩

/-- Slice bounds of `splitFile` on exact integers: with `N ≥ 1` nodes, a file of `L`
bytes and `partSize = ceil(L / N)`, the function returns normally exactly when
`(N - 1) * partSize ≤ L`, which is also exactly when every slice
`fileBytes[start:end]` of the loop is in range; otherwise some iteration `i`
has `start > end` and `splitFile` panics there with slice bounds out of range.
That is the case whenever `0 < L < N - 1`. -/
theorem splitFile_returns_iff_exact (s : Service) (fileBytes : List Byte) (partSize : Int)
    (hN : 1 ≤ s.currentNumStorageServers)
    (hps : partSize = ⌈((fileBytes.length : ℚ) / (s.currentNumStorageServers : ℚ))⌉) :
    ((∃ parts, s.splitFile fileBytes = .ok parts) ↔
      (s.currentNumStorageServers - 1) * partSize ≤ (fileBytes.length : Int)) ∧
    ((∀ i : Int, 0 ≤ i → i < s.currentNumStorageServers →
        ∃ data, sliceExpr fileBytes (i * partSize)
          (if (i + 1) * partSize > (fileBytes.length : Int) then (fileBytes.length : Int)
            else (i + 1) * partSize) = .ok data) ↔
      (s.currentNumStorageServers - 1) * partSize ≤ (fileBytes.length : Int)) ∧
    ((fileBytes.length : Int) < (s.currentNumStorageServers - 1) * partSize →
      ∃ i : Int, 0 ≤ i ∧ i < s.currentNumStorageServers ∧
        (if (i + 1) * partSize > (fileBytes.length : Int) then (fileBytes.length : Int)
          else (i + 1) * partSize) < i * partSize ∧
        s.splitFile fileBytes = .error (.sliceBoundsOutOfRange (i * partSize)
          (if (i + 1) * partSize > (fileBytes.length : Int) then (fileBytes.length : Int)
            else (i + 1) * partSize))) ∧
    (0 < fileBytes.length → (fileBytes.length : Int) < s.currentNumStorageServers - 1 →
      (fileBytes.length : Int) < (s.currentNumStorageServers - 1) * partSize) := by
  obtain ⟨n, hn, h1, hc, hiff⟩ := nodeCount_bridge s.currentNumStorageServers fileBytes.length hN
  rw [← hps] at hc hiff
  have hp0 : 0 ≤ partSize := by rw [hc]; exact Int.ofNat_nonneg _
  have hpanic : (fileBytes.length : Int) < (s.currentNumStorageServers - 1) * partSize →
      ∃ i : Int, 0 ≤ i ∧ i < s.currentNumStorageServers ∧
        (if (i + 1) * partSize > (fileBytes.length : Int) then (fileBytes.length : Int)
          else (i + 1) * partSize) < i * partSize ∧
        s.splitFile fileBytes = .error (.sliceBoundsOutOfRange (i * partSize)
          (if (i + 1) * partSize > (fileBytes.length : Int) then (fileBytes.length : Int)
            else (i + 1) * partSize)) := by
    intro hlt
    have hnot : fileBytes.length < (n - 1) * partSizeNat fileBytes.length n := by
      by_contra h
      exact absurd (hiff.mpr (by omega)) (by omega)
    obtain ⟨t, ht, htl, he⟩ := splitFile_of_not_fits s fileBytes n hn h1 hnot
    have hcast : (fileBytes.length : Int) < (t : Int) * partSize := by
      rw [hc]; exact_mod_cast htl
    have hclamp : (if ((t : Int) + 1) * partSize > (fileBytes.length : Int)
        then (fileBytes.length : Int) else ((t : Int) + 1) * partSize)
        = (fileBytes.length : Int) := by
      rw [if_pos]
      have : ((t : Int) + 1) * partSize = (t : Int) * partSize + partSize := by ring
      omega
    refine ⟨(t : Int), Int.ofNat_nonneg _, by omega, ?_, ?_⟩
    · rw [hclamp]; exact hcast
    · rw [hclamp, hc]; exact he
  refine ⟨⟨?_, ?_⟩, ⟨?_, ?_⟩, hpanic, ?_⟩
  · rintro ⟨parts, hok⟩
    by_contra hlt
    obtain ⟨i, _, _, _, he⟩ := hpanic (by omega)
    rw [he] at hok
    exact Except.noConfusion hok
  · intro hfit
    exact ⟨_, splitFile_of_fits s fileBytes n hn h1 (hiff.mp hfit)⟩
  · intro hall
    obtain ⟨data, hd⟩ := hall (s.currentNumStorageServers - 1) (by omega) (by omega)
    unfold sliceExpr at hd
    split_ifs at hd with h2 h3 <;> omega
  · intro hfit i hi0 hiN
    have hstep : (i + 1) * partSize = i * partSize + partSize := by ring
    have hmono : i * partSize ≤ (s.currentNumStorageServers - 1) * partSize :=
      Int.mul_le_mul_of_nonneg_right (by omega) hp0
    have hnn : 0 ≤ i * partSize := Int.mul_nonneg hi0 hp0
    unfold sliceExpr
    split_ifs with h2 h3 h4 <;> first | exact ⟨_, rfl⟩ | omega
  · intro hl hlt
    have hpos := partSizeNat_pos fileBytes.length n h1 hl
    have h1p : (1 : Int) ≤ partSize := by rw [hc]; exact_mod_cast hpos
    have : (s.currentNumStorageServers - 1) * 1 ≤ (s.currentNumStorageServers - 1) * partSize :=
      Int.mul_le_mul_of_nonneg_left h1p (by omega)
    omega

/-- The function `splitFile` reads nothing of the service but its node count. -/
theorem splitFile_congr (s t : Service) (b : List Byte)
    (h : s.currentNumStorageServers = t.currentNumStorageServers) :
    s.splitFile b = t.splitFile b := by
  unfold Service.splitFile
  rw [h]

/-- What a normal return of `splitFile` on `N ≥ 1` nodes looks like. -/
theorem splitFile_ok_inv (s t : Service) (b : List Byte) (parts : List FilePart)
    (hN : 1 ≤ s.currentNumStorageServers) (h : s.splitFile b = .ok parts) :
    (parts.length : Int) = s.currentNumStorageServers ∧ t.assembleFile parts = b := by
  obtain ⟨n, hn, h1, _, _⟩ := nodeCount_bridge s.currentNumStorageServers b.length hN
  by_cases hfit : (n - 1) * partSizeNat b.length n ≤ b.length
  · rw [splitFile_of_fits s b n hn h1 hfit] at h
    obtain rfl := Except.ok.inj h
    exact ⟨by rw [length_partsFrom, hn], assembleFile_partsFrom t b n h1⟩
  · obtain ⟨i, _, _, he⟩ := splitFile_of_not_fits s b n hn h1 (by omega)
    rw [he] at h
    exact Except.noConfusion h

/-- The handlers never look at the service when they read a stored file. -/
theorem DownloadHandler_snd_congr (wd wd2 : World) (w : ResponseWriter) (fileName : String)
    (h : wd2.FilePartsMap = wd.FilePartsMap) :
    (DownloadHandler wd2 w fileName).2 = (DownloadHandler wd w fileName).2 := by
  unfold DownloadHandler
  rw [h]
  by_cases hf : fileName = ""
  · simp [hf]
  · simp only [if_neg hf]
    cases wd.FilePartsMap fileName with
    | none => rfl
    | some fileParts =>
      simp only [Service.assembleFile]
      split <;> rfl

theorem DownloadHandler_FilePartsMap (wd : World) (w : ResponseWriter) (fileName : String) :
    (DownloadHandler wd w fileName).1.FilePartsMap = wd.FilePartsMap := by
  unfold DownloadHandler
  by_cases hf : fileName = ""
  · simp [hf]
  · simp only [if_neg hf]
    cases wd.FilePartsMap fileName with
    | none => rfl
    | some fileParts =>
      simp only
      split <;> rfl

theorem AddServerHandler_FilePartsMap (unmarshal : List Byte → Option AddServerRequest)
    (wd : World) (w : ResponseWriter) (r : AddServerHTTP) :
    (AddServerHandler unmarshal wd w r).1.FilePartsMap = wd.FilePartsMap := by
  unfold AddServerHandler
  by_cases hm : r.Method = "POST"
  · simp only [hm, ne_eq, not_true_eq_false, if_false]
    split
    · rfl
    · split <;> rfl
  · simp [hm]

/-- The response of a download, on a connection that accepts writes, for a
name with stored parts. -/
theorem DownloadHandler_found (wd : World) (fileName : String) (parts : List FilePart)
    (hf : fileName ≠ "") (hm : wd.FilePartsMap fileName = some parts) :
    (DownloadHandler wd (.fresh false) fileName).2 =
      ⟨[("Content-Disposition", "attachment; filename=\"" ++ fileName ++ "\"")], some 200,
        (parts.map FilePart.Data).flatten, false⟩ := by
  unfold DownloadHandler
  simp only [if_neg hf, hm, assembleFile_eq_flatten]
  simp [ResponseWriter.Write, ResponseWriter.WriteHeader, ResponseWriter.setHeader,
    ResponseWriter.fresh]

/-- C5. The response of `DownloadHandler` (on a connection that accepts the
writes) is fixed by the `file` query value and the name-to-parts map: an empty
value gives 400 and the body "Please provide the 'file' parameter" with a
newline; a non-empty value that is no key of the map gives 404 and the body
"File not found" with a newline; a key of the map gives 200, the header
`Content-Disposition: attachment; filename="<name>"` and as body the stored
parts' data concatenated in stored order (empty for an empty list of parts).
Whatever the connection does, the map is left unchanged. -/
theorem DownloadHandler_response (wd : World) (fileName : String) :
    (fileName = "" →
      (DownloadHandler wd (.fresh false) fileName).2.status = some 400 ∧
      (DownloadHandler wd (.fresh false) fileName).2.body
        = strBytes "Please provide the 'file' parameter\n") ∧
    (fileName ≠ "" → wd.FilePartsMap fileName = none →
      (DownloadHandler wd (.fresh false) fileName).2.status = some 404 ∧
      (DownloadHandler wd (.fresh false) fileName).2.body = strBytes "File not found\n") ∧
    (∀ parts : List FilePart, fileName ≠ "" → wd.FilePartsMap fileName = some parts →
      (DownloadHandler wd (.fresh false) fileName).2.status = some 200 ∧
      (DownloadHandler wd (.fresh false) fileName).2.getHeader "Content-Disposition"
        = some ("attachment; filename=\"" ++ fileName ++ "\"") ∧
      (DownloadHandler wd (.fresh false) fileName).2.body
        = (parts.map FilePart.Data).flatten ∧
      (parts = [] → (DownloadHandler wd (.fresh false) fileName).2.body = [])) ∧
    (∀ w : ResponseWriter, (DownloadHandler wd w fileName).1.FilePartsMap = wd.FilePartsMap) := by
  refine ⟨?_, ?_, ?_, fun w => DownloadHandler_FilePartsMap wd w fileName⟩
  · intro hf
    subst hf
    exact ⟨rfl, rfl⟩
  · intro hf hm
    unfold DownloadHandler
    simp only [if_neg hf, hm]
    exact ⟨rfl, rfl⟩
  · intro parts hf hm
    rw [DownloadHandler_found wd fileName parts hf hm]
    refine ⟨rfl, ?_, rfl, ?_⟩
    · simp [ResponseWriter.getHeader]
    · rintro rfl; rfl

/-- C6. Node growth stability: whatever the `AddServerHandler` request
(accepted or rejected) and whatever `json.Unmarshal` answers, the
name-to-parts map is unchanged, so every later download answers (status,
headers and body) exactly as it would have before the request. -/
theorem AddServerHandler_keeps_files (unmarshal : List Byte → Option AddServerRequest)
    (wd : World) (w : ResponseWriter) (r : AddServerHTTP) :
    (AddServerHandler unmarshal wd w r).1.FilePartsMap = wd.FilePartsMap ∧
    ∀ (w2 : ResponseWriter) (fileName : String),
      (DownloadHandler (AddServerHandler unmarshal wd w r).1 w2 fileName).2
        = (DownloadHandler wd w2 fileName).2 :=
  ⟨AddServerHandler_FilePartsMap unmarshal wd w r, fun w2 fileName =>
    DownloadHandler_snd_congr wd _ w2 fileName (AddServerHandler_FilePartsMap unmarshal wd w r)⟩

/-- Growth then re-upload on exact integers: on a service with `N ≥ 1` nodes, after an
accepted `AddServerHandler` request (POST, readable body, JSON that decodes)
and then an upload of bytes `B` under the name `f` that returns, the upload
answered 201, the layout stored for `f` is the `N + 1` parts that `splitFile`
computes from `B` on any service with `N + 1` nodes (nothing of the former
layout is left), and downloading `f` answers 200 with body `B`.  The name is
not empty, as for every file field of a multipart form. -/
theorem reupload_after_addServer_exact (unmarshal : List Byte → Option AddServerRequest)
    (wd : World) (w1 w2 : ResponseWriter) (r : AddServerHTTP) (body : List Byte)
    (addr : AddServerRequest) (f : String) (B : List Byte)
    (hN : 1 ≤ wd.s.currentNumStorageServers)
    (hPost : r.Method = "POST") (hBody : r.Body = some body)
    (hJson : unmarshal body = some addr) (hName : f ≠ "")
    (hUp : ∃ out, UploadHandler (AddServerHandler unmarshal wd w1 r).1 w2 (.file f B)
      = .ok out) :
    (AddServerHandler unmarshal wd w1 r).2 = w1.WriteHeader 201 ∧
    ∃ (wd2 : World) (parts : List FilePart),
      UploadHandler (AddServerHandler unmarshal wd w1 r).1 w2 (.file f B)
        = .ok (wd2, w2.WriteHeader 201) ∧
      (∀ t : Service, t.currentNumStorageServers = wd.s.currentNumStorageServers + 1 →
        t.splitFile B = .ok parts) ∧
      wd2.FilePartsMap f = some parts ∧
      (parts.length : Int) = wd.s.currentNumStorageServers + 1 ∧
      (DownloadHandler wd2 (.fresh false) f).2.status = some 200 ∧
      (DownloadHandler wd2 (.fresh false) f).2.body = B := by
  have hadd : AddServerHandler unmarshal wd w1 r =
      (⟨Service.IncApiRequestsCount
          ⟨wd.s.metrics, wd.s.storageServers ++ [addr.Address],
            wd.s.currentNumStorageServers + 1⟩ "POST" "/addServer" "200",
        wd.FilePartsMap⟩, w1.WriteHeader 201) := by
    unfold AddServerHandler
    simp [hPost, hBody, hJson]
  have hcount : (AddServerHandler unmarshal wd w1 r).1.s.currentNumStorageServers
      = wd.s.currentNumStorageServers + 1 := by rw [hadd]; rfl
  refine ⟨by rw [hadd], ?_⟩
  obtain ⟨out, hout⟩ := hUp
  cases hsplit : (AddServerHandler unmarshal wd w1 r).1.s.splitFile B with
  | error p =>
    simp [UploadHandler, hsplit] at hout
  | ok parts =>
    obtain ⟨hlen, hasm⟩ := splitFile_ok_inv _ (AddServerHandler unmarshal wd w1 r).1.s B parts
      (by rw [hcount]; omega) hsplit
    have hup : UploadHandler (AddServerHandler unmarshal wd w1 r).1 w2 (.file f B)
        = .ok (⟨Service.IncApiRequestsCount
            ((AddServerHandler unmarshal wd w1 r).1.s.distributeFileParts f parts)
            "POST" "/upload" "200",
          mapSet (AddServerHandler unmarshal wd w1 r).1.FilePartsMap f parts⟩,
          w2.WriteHeader 201) := by
      simp only [UploadHandler, hsplit]
    refine ⟨_, parts, hup, ?_, ?_, ?_, ?_⟩
    · intro t ht
      rw [← hsplit]
      exact splitFile_congr _ _ _ (by rw [ht, hcount])
    · simp [mapSet]
    · rw [hlen, hcount]
    · have hm : (mapSet (AddServerHandler unmarshal wd w1 r).1.FilePartsMap f parts) f
          = some parts := by simp [mapSet]
      rw [DownloadHandler_found _ f parts hName hm, ← assembleFile_eq_flatten
        (AddServerHandler unmarshal wd w1 r).1.s, hasm]
      exact ⟨rfl, rfl⟩

/-- C4, amended. With a node count of 0 `splitFile` returns no layout and no
error value: for every byte sequence it panics with an integer division by
zero, and an upload reaching it panics the same way, leaving no response. -/
theorem splitFile_zero_nodes (wd : World) (w : ResponseWriter) (f : String)
    (fileBytes : List Byte) (h0 : wd.s.currentNumStorageServers = 0) :
    wd.s.splitFile fileBytes = .error .integerDivideByZero ∧
    UploadHandler wd w (.file f fileBytes) = .error .integerDivideByZero := by
  have h : wd.s.splitFile fileBytes = .error .integerDivideByZero := by
    unfold Service.splitFile goDiv
    rw [h0]
    rfl
  exact ⟨h, by simp only [UploadHandler, h]⟩

/-- The ceiling of `len / n` for a node count given as a natural number. -/
theorem ceil_nodes (len n : Nat) (h1 : 1 ≤ n) :
    ⌈((len : ℚ) / (((n : Nat) : Int) : ℚ))⌉ = (partSizeNat len n : Int) := by
  rw [Int.cast_natCast]
  exact ceil_eq_partSizeNat len n h1

/-- C10, at ten bytes on three nodes. -/
theorem splitFile_assembleFile_of_fits_witness :
    (1 : Int) ≤ 3 ∧
    ∃ parts, (serviceWith 3).splitFile tenBytes = .ok parts ∧
      (parts.length : Int) = 3 ∧ (serviceWith 3).assembleFile parts = tenBytes :=
  ⟨by decide, (splitFile_assembleFile_of_fits (serviceWith 3) tenBytes (by decide)).2.2 (by
    show ((3 : Int) - 1) * ⌈(((10 : Nat) : ℚ) / (((3 : Nat) : Int) : ℚ))⌉ ≤ ((10 : Nat) : Int)
    rw [ceil_nodes 10 3 (by decide)]
    decide)⟩

/-- C3, at ten bytes on three nodes: the ranges are `[0,4)`, `[4,8)`, `[8,10)`. -/
theorem splitFile_part_sizes_witness :
    (1 : Int) ≤ 3 ∧
    (serviceWith 3).splitFile tenBytes
      = .ok [⟨0, [0, 1, 2, 3]⟩, ⟨1, [4, 5, 6, 7]⟩, ⟨2, [8, 9]⟩] ∧
    ∃ parts, (serviceWith 3).splitFile tenBytes = .ok parts ∧ (parts.length : Int) = 3 ∧
      (∀ (i : Nat) (part : FilePart), parts[i]? = some part → i + 1 < parts.length →
        (part.Data.length : Int) = 4) ∧
      (∀ part : FilePart, parts.getLast? = some part → (part.Data.length : Int) = 2) := by
  have hc : ⌈(((10 : Nat) : ℚ) / (((3 : Nat) : Int) : ℚ))⌉ = 4 := by
    rw [ceil_nodes 10 3 (by decide)]; rfl
  obtain ⟨parts, hok, hlen, hsz, hlast, _⟩ :=
    splitFile_part_sizes (serviceWith 3) tenBytes (by decide) (by
      show ((3 : Int) - 1) * ⌈(((10 : Nat) : ℚ) / (((3 : Nat) : Int) : ℚ))⌉
        ≤ ((10 : Nat) : Int)
      rw [hc]; decide)
  refine ⟨by decide, rfl, parts, hok, hlen, ?_, ?_⟩
  · intro i part hp hi
    have := hsz i part hp hi
    rwa [show ⌈((tenBytes.length : ℚ) / ((serviceWith 3).currentNumStorageServers : ℚ))⌉
      = 4 from hc] at this
  · intro part hp
    have := hlast part hp
    rw [show ⌈((tenBytes.length : ℚ) / ((serviceWith 3).currentNumStorageServers : ℚ))⌉
      = 4 from hc] at this
    exact this

/-- C3 as stated fails for two bytes on four nodes: `splitFile` returns no
parts at all (it panics on the slice `[3:2]`), and three parts of
`ceil(2 / 4) = 1` byte each would not fit in two bytes anyway. -/
theorem splitFile_part_sizes_counterexample :
    (serviceWith 4).splitFile [1, 2] = .error (.sliceBoundsOutOfRange 3 2) ∧
    (¬ ∃ parts, (serviceWith 4).splitFile [1, 2] = .ok parts) ∧
    ((2 : Nat) : Int) < ((4 : Int) - 1) * ⌈(((2 : Nat) : ℚ) / ((4 : Int) : ℚ))⌉ := by
  have hc : ⌈(((2 : Nat) : ℚ) / (((4 : Nat) : Int) : ℚ))⌉ = 1 := by
    rw [ceil_nodes 2 4 (by decide)]; rfl
  refine ⟨rfl, ?_, ?_⟩
  · rintro ⟨parts, h⟩
    exact Except.noConfusion (h.symm.trans
      (show (serviceWith 4).splitFile [1, 2] = .error (.sliceBoundsOutOfRange 3 2) from rfl))
  · show ((2 : Nat) : Int) < ((4 : Int) - 1) * ⌈(((2 : Nat) : ℚ) / (((4 : Nat) : Int) : ℚ))⌉
    rw [hc]; decide

/-- C4, at three bytes on zero nodes. -/
theorem splitFile_zero_nodes_witness :
    (emptyWorld 0).s.currentNumStorageServers = 0 ∧
    (emptyWorld 0).s.splitFile [1, 2, 3] = .error .integerDivideByZero ∧
    UploadHandler (emptyWorld 0) (.fresh false) (.file "a.txt" [1, 2, 3])
      = .error .integerDivideByZero :=
  ⟨rfl, splitFile_zero_nodes (emptyWorld 0) (.fresh false) "a.txt" [1, 2, 3] rfl⟩

/-- C4 as stated fails: with zero nodes the call does not come back with an
error value, it panics with an integer division by zero. -/
theorem splitFile_zero_nodes_counterexample :
    (serviceWith 0).splitFile [] = .error .integerDivideByZero ∧
    ¬ ∃ result, (serviceWith 0).splitFile [] = .ok result := by
  refine ⟨rfl, ?_⟩
  rintro ⟨result, h⟩
  exact Except.noConfusion (h.symm.trans
    (show (serviceWith 0).splitFile [] = .error .integerDivideByZero from rfl))

/-- C1 fails on the code: with the default six nodes the upload of a
three-byte file panics in `splitFile`, nothing is stored, and the download of
that name answers 404 instead of the three bytes. -/
theorem UploadHandler_three_bytes_six_nodes :
    UploadHandler (emptyWorld 6) (.fresh false) (.file "test.txt" [1, 2, 3])
      = .error (.sliceBoundsOutOfRange 4 3) ∧
    (DownloadHandler (emptyWorld 6) (.fresh false) "test.txt").2.status = some 404 ∧
    (DownloadHandler (emptyWorld 6) (.fresh false) "test.txt").2.body
      = strBytes "File not found\n" :=
  ⟨rfl, rfl, rfl⟩

/-- C2 fails on the code: for one byte on three nodes `splitFile` returns no
parts; the third iteration asks for the slice `[2:1]` and panics. -/
theorem splitFile_one_byte_three_nodes :
    (serviceWith 3).splitFile [7] = .error (.sliceBoundsOutOfRange 2 1) ∧
    ¬ ∃ parts, (serviceWith 3).splitFile [7] = .ok parts := by
  refine ⟨rfl, ?_⟩
  rintro ⟨parts, h⟩
  exact Except.noConfusion (h.symm.trans
    (show (serviceWith 3).splitFile [7] = .error (.sliceBoundsOutOfRange 2 1) from rfl))

/-- C5, on the "File Found" case of `TestDownloadHandler`. -/
theorem DownloadHandler_response_witness :
    "example.txt" ≠ "" ∧
    exampleWorld.FilePartsMap "example.txt" = some [⟨0, [1, 2, 3]⟩, ⟨0, [4, 5]⟩] ∧
    (DownloadHandler exampleWorld (.fresh false) "example.txt").2.status = some 200 ∧
    (DownloadHandler exampleWorld (.fresh false) "example.txt").2.body = [1, 2, 3, 4, 5] := by
  have h := (DownloadHandler_response exampleWorld "example.txt").2.2.1
    [⟨0, [1, 2, 3]⟩, ⟨0, [4, 5]⟩] (by decide) rfl
  exact ⟨by decide, rfl, h.1, h.2.2.1⟩

/-! ## Machine integers against exact integers -/

theorem wrapInt64_eq_self (x : Int) (h1 : minInt64 ≤ x) (h2 : x ≤ maxInt64) :
    wrapInt64 x = x := by
  unfold wrapInt64
  unfold minInt64 at h1
  unfold maxInt64 at h2
  omega

/-- The bounds of an iteration whose products fit are the exact ones. -/
theorem loop_bounds_eq (len partSize i : Int) (hi : 0 ≤ i) (hp : 0 ≤ partSize)
    (h1 : i + 1 ≤ maxInt64) (h2 : (i + 1) * partSize ≤ maxInt64) :
    loopStart partSize i = i * partSize ∧
    loopEnd len partSize i
      = (if (i + 1) * partSize > len then len else (i + 1) * partSize) := by
  have hmin : minInt64 ≤ 0 := by decide
  have h0 : 0 ≤ i * partSize := Int.mul_nonneg hi hp
  have h3 : i * partSize ≤ (i + 1) * partSize :=
    Int.mul_le_mul_of_nonneg_right (by omega) hp
  have h4 : 0 ≤ (i + 1) * partSize := Int.mul_nonneg (by omega) hp
  unfold loopStart loopEnd
  rw [wrapInt64_eq_self (i + 1) (by omega) h1,
    wrapInt64_eq_self ((i + 1) * partSize) (by omega) h2,
    wrapInt64_eq_self (i * partSize) (by omega) (by omega)]
  exact ⟨rfl, rfl⟩

/-- The loop on machine integers is the exact loop when its last product fits. -/
theorem splitFileLoopInt64_eq (b : List Byte) (partSize : Int) (hp : 0 ≤ partSize) :
    ∀ (k : Nat) (i : Int) (acc : List FilePart), 0 ≤ i →
      i + (k : Int) ≤ maxInt64 → (i + (k : Int)) * partSize ≤ maxInt64 →
      splitFileLoopInt64 b partSize k i acc = splitFileLoop b partSize k i acc := by
  intro k
  induction k with
  | zero => intro i acc _ _ _; rfl
  | succ k ih =>
    intro i acc hi h1 h2
    have hk : ((k + 1 : Nat) : Int) = (k : Int) + 1 := by push_cast; ring
    rw [hk] at h1 h2
    have hmono : (i + 1) * partSize ≤ (i + ((k : Int) + 1)) * partSize :=
      Int.mul_le_mul_of_nonneg_right (by omega) hp
    obtain ⟨hs, he⟩ := loop_bounds_eq (b.length : Int) partSize i hi hp (by omega) (by omega)
    have hmin : minInt64 ≤ 0 := by decide
    simp only [splitFileLoopInt64, splitFileLoop]
    rw [hs, he, wrapInt64_eq_self (i + 1) (by omega) (by omega)]
    cases sliceExpr b (i * partSize)
        (if (i + 1) * partSize > (b.length : Int) then (b.length : Int)
          else (i + 1) * partSize) with
    | error p => rfl
    | ok data =>
      simp only
      exact ih (i + 1) _ (by omega) (by omega)
        (by rw [show i + 1 + (k : Int) = i + ((k : Int) + 1) by ring]; exact h2)

/-- The division of `splitFile` on machine integers gives the exact part size
when `len(fileBytes) + n - 1` fits. -/
theorem goDivInt64_partSize (len n : Nat) (h1 : 1 ≤ n)
    (h2 : (len : Int) + (n : Int) - 1 ≤ maxInt64) :
    goDivInt64 (wrapInt64 (wrapInt64 ((len : Int) + (n : Int)) - 1)) (n : Int)
      = .ok (partSizeNat len n : Int) := by
  have hnum : wrapInt64 (wrapInt64 ((len : Int) + (n : Int)) - 1)
      = ((len + n - 1 : Nat) : Int) := by
    unfold wrapInt64
    unfold maxInt64 at h2
    omega
  have hdiv : Int.tdiv ((len + n - 1 : Nat) : Int) (n : Int)
      = ((partSizeNat len n : Nat) : Int) := rfl
  have hple := partSizeNat_mul_le len n
  have hp : partSizeNat len n ≤ n * partSizeNat len n := Nat.le_mul_of_pos_left _ (by omega)
  have hmin : minInt64 ≤ 0 := by decide
  have hne : ¬ ((n : Int) = 0) := by omega
  unfold goDivInt64
  rw [if_neg hne, hnum, hdiv, wrapInt64_eq_self _ (by omega) (by omega)]

/-- On `n ≥ 1` nodes `splitFile` on machine integers is the exact `splitFile`
when `len(fileBytes) + n - 1` fits. -/
theorem splitFileInt64_eq (s : Service) (b : List Byte)
    (h1 : 1 ≤ s.currentNumStorageServers) (h3 : s.currentNumStorageServers ≤ maxInt64)
    (h2 : (b.length : Int) + s.currentNumStorageServers - 1 ≤ maxInt64) :
    s.splitFileInt64 b = s.splitFile b := by
  obtain ⟨n, hn⟩ := Int.eq_ofNat_of_zero_le (show 0 ≤ s.currentNumStorageServers by omega)
  have hn1 : 1 ≤ n := by omega
  rw [hn] at h2 h3
  have hple := partSizeNat_mul_le b.length n
  have hprod : ((n : Int)) * (partSizeNat b.length n : Int) ≤ maxInt64 := by
    have : ((n * partSizeNat b.length n : Nat) : Int) ≤ ((b.length + n - 1 : Nat) : Int) :=
      Int.ofNat_le.mpr hple
    push_cast at this
    omega
  rw [splitFile_eq_loop s b n hn hn1]
  unfold Service.splitFileInt64
  rw [hn, goDivInt64_partSize b.length n hn1 h2]
  simp only [Int.sub_zero, Int.toNat_ofNat, Nat.cast_zero]
  exact splitFileLoopInt64_eq b _ (Int.ofNat_nonneg _) n 0 [] (le_refl _)
    (by omega) (by rw [Int.zero_add]; exact hprod)

theorem UploadHandlerInt64_eq (wd : World) (w : ResponseWriter) (f : String) (b : List Byte)
    (h1 : 1 ≤ wd.s.currentNumStorageServers) (h3 : wd.s.currentNumStorageServers ≤ maxInt64)
    (h2 : (b.length : Int) + wd.s.currentNumStorageServers - 1 ≤ maxInt64) :
    UploadHandlerInt64 wd w (.file f b) = UploadHandler wd w (.file f b) := by
  simp only [UploadHandlerInt64, UploadHandler, splitFileInt64_eq wd.s b h1 h3 h2]

theorem AddServerHandlerInt64_eq (unmarshal : List Byte → Option AddServerRequest)
    (wd : World) (w : ResponseWriter) (r : AddServerHTTP)
    (h1 : minInt64 ≤ wd.s.currentNumStorageServers + 1)
    (h2 : wd.s.currentNumStorageServers + 1 ≤ maxInt64) :
    AddServerHandlerInt64 unmarshal wd w r = AddServerHandler unmarshal wd w r := by
  simp only [AddServerHandlerInt64, AddServerHandler, wrapInt64_eq_self _ h1 h2]

/-- With a part size of zero every slice of the loop is `[0:0]`, so the loop
on machine integers returns. -/
theorem splitFileLoopInt64_zero (b : List Byte) :
    ∀ (k : Nat) (i : Int) (acc : List FilePart),
      ∃ parts, splitFileLoopInt64 b 0 k i acc = .ok parts := by
  intro k
  induction k with
  | zero => intro i acc; exact ⟨acc, rfl⟩
  | succ k ih =>
    intro i acc
    have hs : loopStart 0 i = 0 := by simp [loopStart, wrapInt64]
    have he : loopEnd (b.length : Int) 0 i = 0 := by
      have : ¬ ((0 : Int) > (b.length : Int)) := by omega
      simp [loopEnd, wrapInt64, this]
    have hsl : sliceExpr b 0 0 = .ok [] := by
      unfold sliceExpr
      rw [if_pos (by omega)]
      simp
    simp only [splitFileLoopInt64, hs, he, hsl]
    exact ih _ _

/-- C9, amended. Slice-bounds safety of `splitFile` on machine integers: with
`N ≥ 1` nodes and a file of `L` bytes such that `L + N - 1` does not overflow
an `int`, the part size the code computes is `partSize = ceil(L / N)`; the
function returns normally exactly when `(N - 1) * partSize ≤ L`, which is also
exactly when every slice `fileBytes[start:end]` of the loop is in range;
otherwise some iteration `i` has `start > end` and `splitFile` panics there
with slice bounds out of range.  That is the case whenever `0 < L < N - 1`. -/
theorem splitFileInt64_returns_iff (s : Service) (fileBytes : List Byte) (partSize : Int)
    (hN : 1 ≤ s.currentNumStorageServers)
    (hInt : s.currentNumStorageServers ≤ maxInt64)
    (hSum : (fileBytes.length : Int) + s.currentNumStorageServers - 1 ≤ maxInt64)
    (hps : partSize = ⌈((fileBytes.length : ℚ) / (s.currentNumStorageServers : ℚ))⌉) :
    goDivInt64
        (wrapInt64 (wrapInt64 ((fileBytes.length : Int) + s.currentNumStorageServers) - 1))
        s.currentNumStorageServers = .ok partSize ∧
    ((∃ parts, s.splitFileInt64 fileBytes = .ok parts) ↔
      (s.currentNumStorageServers - 1) * partSize ≤ (fileBytes.length : Int)) ∧
    ((∀ i : Int, 0 ≤ i → i < s.currentNumStorageServers →
        ∃ data, sliceExpr fileBytes (loopStart partSize i)
          (loopEnd (fileBytes.length : Int) partSize i) = .ok data) ↔
      (s.currentNumStorageServers - 1) * partSize ≤ (fileBytes.length : Int)) ∧
    ((fileBytes.length : Int) < (s.currentNumStorageServers - 1) * partSize →
      ∃ i : Int, 0 ≤ i ∧ i < s.currentNumStorageServers ∧
        loopEnd (fileBytes.length : Int) partSize i < loopStart partSize i ∧
        s.splitFileInt64 fileBytes = .error (.sliceBoundsOutOfRange
          (loopStart partSize i) (loopEnd (fileBytes.length : Int) partSize i))) ∧
    (0 < fileBytes.length → (fileBytes.length : Int) < s.currentNumStorageServers - 1 →
      (fileBytes.length : Int) < (s.currentNumStorageServers - 1) * partSize) := by
  obtain ⟨hret, hall, hpanic, hsmall⟩ := splitFile_returns_iff_exact s fileBytes partSize hN hps
  obtain ⟨n, hn, h1, hc, _⟩ := nodeCount_bridge s.currentNumStorageServers fileBytes.length hN
  rw [← hps] at hc
  have hp0 : 0 ≤ partSize := by rw [hc]; exact Int.ofNat_nonneg _
  have hprod : s.currentNumStorageServers * partSize ≤ maxInt64 := by
    have hple := partSizeNat_mul_le fileBytes.length n
    have : ((n * partSizeNat fileBytes.length n : Nat) : Int)
        ≤ ((fileBytes.length + n - 1 : Nat) : Int) := Int.ofNat_le.mpr hple
    push_cast at this
    rw [hn, hc]
    rw [hn] at hSum
    omega
  have hb : ∀ i : Int, 0 ≤ i → i < s.currentNumStorageServers →
      loopStart partSize i = i * partSize ∧
      loopEnd (fileBytes.length : Int) partSize i
        = (if (i + 1) * partSize > (fileBytes.length : Int) then (fileBytes.length : Int)
            else (i + 1) * partSize) := by
    intro i hi0 hiN
    have : (i + 1) * partSize ≤ s.currentNumStorageServers * partSize :=
      Int.mul_le_mul_of_nonneg_right (by omega) hp0
    exact loop_bounds_eq _ partSize i hi0 hp0 (by omega) (by omega)
  rw [splitFileInt64_eq s fileBytes hN hInt hSum]
  refine ⟨?_, hret, ⟨?_, ?_⟩, ?_, hsmall⟩
  · have := goDivInt64_partSize fileBytes.length n h1 (by rw [hn] at hSum; exact hSum)
    rw [hn, hc]
    exact this
  · intro h
    refine hall.mp (fun i hi0 hiN => ?_)
    obtain ⟨data, hd⟩ := h i hi0 hiN
    rw [(hb i hi0 hiN).1, (hb i hi0 hiN).2] at hd
    exact ⟨data, hd⟩
  · intro h i hi0 hiN
    obtain ⟨data, hd⟩ := hall.mpr h i hi0 hiN
    rw [(hb i hi0 hiN).1, (hb i hi0 hiN).2]
    exact ⟨data, hd⟩
  · intro hlt
    obtain ⟨i, hi0, hiN, hlt2, he⟩ := hpanic hlt
    refine ⟨i, hi0, hiN, ?_, ?_⟩
    · rw [(hb i hi0 hiN).1, (hb i hi0 hiN).2]; exact hlt2
    · rw [(hb i hi0 hiN).1, (hb i hi0 hiN).2]; exact he

/-- C9, at three bytes on six nodes (`partSize = 1`): the iteration `i = 4`
asks for the slice `[4:3]` and `splitFile` panics. -/
theorem splitFileInt64_returns_iff_witness :
    (1 : Int) ≤ 6 ∧ (6 : Int) ≤ maxInt64 ∧ (3 : Int) + 6 - 1 ≤ maxInt64 ∧
    (serviceWith 6).splitFileInt64 [1, 2, 3] = .error (.sliceBoundsOutOfRange 4 3) ∧
    ¬ ∃ parts, (serviceWith 6).splitFileInt64 [1, 2, 3] = .ok parts := by
  have hc : (1 : Int) = ⌈(((3 : Nat) : ℚ) / (((6 : Nat) : Int) : ℚ))⌉ := by
    rw [ceil_nodes 3 6 (by decide)]; rfl
  have h := splitFileInt64_returns_iff (serviceWith 6) [1, 2, 3] 1 (by decide) (by decide)
    (by decide) hc
  refine ⟨by decide, by decide, by decide, rfl, ?_⟩
  intro hex
  have : ((serviceWith 6).currentNumStorageServers - 1) * 1
      ≤ ((([1, 2, 3] : List Byte).length : Nat) : Int) := h.2.1.mp hex
  revert this
  decide

/-- When the code computes a part size of zero, `splitFile` on machine
integers returns. -/
theorem splitFileInt64_of_partSize_zero (s : Service) (b : List Byte)
    (h : goDivInt64 (wrapInt64 (wrapInt64 ((b.length : Int) + s.currentNumStorageServers) - 1))
      s.currentNumStorageServers = .ok 0) :
    ∃ parts, s.splitFileInt64 b = .ok parts := by
  unfold Service.splitFileInt64
  rw [h]
  exact splitFileLoopInt64_zero b _ _ _

/-- C9 as stated fails for five bytes on `MaxInt64` nodes: `len + n - 1`
overflows, the code computes the part size 0 instead of `ceil(5 / n) = 1`,
every slice of the loop is `[0:0]` and in range and no iteration panics,
although `(n - 1) * ceil(5 / n) > 5`. -/
theorem splitFileInt64_returns_iff_counterexample :
    goDivInt64 (wrapInt64 (wrapInt64 ((([1, 2, 3, 4, 5] : List Byte).length : Int)
        + (serviceWith maxInt64).currentNumStorageServers) - 1))
      (serviceWith maxInt64).currentNumStorageServers = .ok 0 ∧
    (∀ i : Int, sliceExpr [1, 2, 3, 4, 5] (loopStart 0 i) (loopEnd 5 0 i) = .ok []) ∧
    (∃ parts, (serviceWith maxInt64).splitFileInt64 [1, 2, 3, 4, 5] = .ok parts) ∧
    ((5 : Nat) : Int) < (maxInt64 - 1) * ⌈(((5 : Nat) : ℚ) / (maxInt64 : ℚ))⌉ := by
  have hc : ⌈(((5 : Nat) : ℚ) / (((9223372036854775807 : Nat) : Int) : ℚ))⌉ = 1 := by
    rw [ceil_nodes 5 9223372036854775807 (by decide)]; rfl
  refine ⟨rfl, ?_, splitFileInt64_of_partSize_zero _ _ rfl, ?_⟩
  · intro i
    have hs : loopStart 0 i = 0 := by simp [loopStart, wrapInt64]
    have he : loopEnd 5 0 i = 0 := by simp [loopEnd, wrapInt64]
    rw [hs, he]
    rfl
  · show ((5 : Nat) : Int) < (maxInt64 - 1)
      * ⌈(((5 : Nat) : ℚ) / (((9223372036854775807 : Nat) : Int) : ℚ))⌉
    rw [hc]
    decide

/-- The node count after an accepted `addServer` request, on exact integers. -/
theorem AddServerHandler_count (unmarshal : List Byte → Option AddServerRequest)
    (wd : World) (w : ResponseWriter) (r : AddServerHTTP) (body : List Byte)
    (addr : AddServerRequest) (hPost : r.Method = "POST") (hBody : r.Body = some body)
    (hJson : unmarshal body = some addr) :
    (AddServerHandler unmarshal wd w r).1.s.currentNumStorageServers
      = wd.s.currentNumStorageServers + 1 := by
  unfold AddServerHandler
  simp [hPost, hBody, hJson, Service.IncApiRequestsCount]

/-- C7, amended. Growth then re-upload on machine integers: on a service with
`N ≥ 1` nodes, for bytes `B` such that neither `N + 1` nor `len(B) + N`
overflows an `int`, after an accepted `AddServerHandler` request (POST,
readable body, JSON that decodes) and then an upload of `B` under the name `f`
that returns, the node count is `N + 1`, the upload answered 201, the layout
stored for `f` is the `N + 1` parts that `splitFile` computes from `B` on any
service with `N + 1` nodes (nothing of the former layout is left), and
downloading `f` answers 200 with body `B`.  The name is not empty, as for
every file field of a multipart form. -/
theorem reupload_after_addServerInt64 (unmarshal : List Byte → Option AddServerRequest)
    (wd : World) (w1 w2 : ResponseWriter) (r : AddServerHTTP) (body : List Byte)
    (addr : AddServerRequest) (f : String) (B : List Byte)
    (hN : 1 ≤ wd.s.currentNumStorageServers)
    (hInt : wd.s.currentNumStorageServers + 1 ≤ maxInt64)
    (hSum : (B.length : Int) + wd.s.currentNumStorageServers ≤ maxInt64)
    (hPost : r.Method = "POST") (hBody : r.Body = some body)
    (hJson : unmarshal body = some addr) (hName : f ≠ "")
    (hUp : ∃ out, UploadHandlerInt64 (AddServerHandlerInt64 unmarshal wd w1 r).1 w2
      (.file f B) = .ok out) :
    (AddServerHandlerInt64 unmarshal wd w1 r).2 = w1.WriteHeader 201 ∧
    (AddServerHandlerInt64 unmarshal wd w1 r).1.s.currentNumStorageServers
      = wd.s.currentNumStorageServers + 1 ∧
    ∃ (wd2 : World) (parts : List FilePart),
      UploadHandlerInt64 (AddServerHandlerInt64 unmarshal wd w1 r).1 w2 (.file f B)
        = .ok (wd2, w2.WriteHeader 201) ∧
      (∀ t : Service, t.currentNumStorageServers = wd.s.currentNumStorageServers + 1 →
        t.splitFileInt64 B = .ok parts) ∧
      wd2.FilePartsMap f = some parts ∧
      (parts.length : Int) = wd.s.currentNumStorageServers + 1 ∧
      (DownloadHandler wd2 (.fresh false) f).2.status = some 200 ∧
      (DownloadHandler wd2 (.fresh false) f).2.body = B := by
  have hmin : minInt64 ≤ wd.s.currentNumStorageServers + 1 := by
    unfold minInt64; omega
  have hA := AddServerHandlerInt64_eq unmarshal wd w1 r hmin hInt
  have hcount := AddServerHandler_count unmarshal wd w1 r body addr hPost hBody hJson
  have hU := UploadHandlerInt64_eq (AddServerHandler unmarshal wd w1 r).1 w2 f B
    (by rw [hcount]; omega) (by rw [hcount]; exact hInt) (by rw [hcount]; omega)
  rw [hA] at hUp ⊢
  rw [hU] at hUp ⊢
  obtain ⟨hresp, wd2, parts, hup, hall, hmap, hlen, hst, hbody⟩ :=
    reupload_after_addServer_exact unmarshal wd w1 w2 r body addr f B hN hPost hBody hJson
      hName hUp
  refine ⟨hresp, hcount, wd2, parts, hup, ?_, hmap, hlen, hst, hbody⟩
  intro t ht
  rw [splitFileInt64_eq t B (by rw [ht]; omega) (by rw [ht]; exact hInt) (by rw [ht]; omega)]
  exact hall t ht

/-- C7, on a two-node world that already holds `a.txt`: one node is added by
a JSON body and the ten bytes are uploaded under the same name. -/
theorem reupload_after_addServerInt64_witness :
    (1 : Int) ≤ oldWorld.s.currentNumStorageServers ∧
    oldWorld.s.currentNumStorageServers + 1 ≤ maxInt64 ∧
    (tenBytes.length : Int) + oldWorld.s.currentNumStorageServers ≤ maxInt64 ∧
    decodeAddressBody addressBody = some ⟨":9003"⟩ ∧
    oldWorld.FilePartsMap "a.txt" = some [⟨0, [9]⟩, ⟨1, []⟩] ∧
    ∃ (wd2 : World) (parts : List FilePart),
      UploadHandlerInt64
        (AddServerHandlerInt64 decodeAddressBody oldWorld (.fresh false)
          ⟨"POST", some addressBody⟩).1
        (.fresh false) (.file "a.txt" tenBytes)
          = .ok (wd2, (ResponseWriter.fresh false).WriteHeader 201) ∧
      wd2.FilePartsMap "a.txt" = some parts ∧
      (parts.length : Int) = 3 ∧
      (DownloadHandler wd2 (.fresh false) "a.txt").2.status = some 200 ∧
      (DownloadHandler wd2 (.fresh false) "a.txt").2.body = tenBytes := by
  have hj : decodeAddressBody addressBody = some ⟨":9003"⟩ := if_pos rfl
  obtain ⟨_, _, wd2, parts, hup, _, hmap, hlen, hst, hbody⟩ :=
    reupload_after_addServerInt64 decodeAddressBody oldWorld (.fresh false) (.fresh false)
      ⟨"POST", some addressBody⟩ addressBody ⟨":9003"⟩ "a.txt" tenBytes (by decide)
      (by decide) (by decide) rfl rfl hj (by decide)
      ⟨_, by simp only [AddServerHandlerInt64, hj]; rfl⟩
  exact ⟨by decide, by decide, by decide, hj, rfl, wd2, parts, hup, hmap, hlen, hst, hbody⟩

/-- C7 as stated fails on `MaxInt64` nodes: the accepted `addServer` request
wraps the node count to `MinInt64`, the upload of three bytes under `a.txt`
answers 201 and stores a layout of no parts, and the download answers 200
with an empty body instead of the three bytes. -/
theorem reupload_after_addServerInt64_counterexample :
    (1 : Int) ≤ fullWorld.s.currentNumStorageServers ∧
    (AddServerHandlerInt64 decodeAddressBody fullWorld (.fresh false)
      ⟨"POST", some addressBody⟩).2.status = some 201 ∧
    (AddServerHandlerInt64 decodeAddressBody fullWorld (.fresh false)
      ⟨"POST", some addressBody⟩).1.s.currentNumStorageServers = minInt64 ∧
    ∃ wd2 : World,
      UploadHandlerInt64
        (AddServerHandlerInt64 decodeAddressBody fullWorld (.fresh false)
          ⟨"POST", some addressBody⟩).1
        (.fresh false) (.file "a.txt" [1, 2, 3])
          = .ok (wd2, (ResponseWriter.fresh false).WriteHeader 201) ∧
      wd2.FilePartsMap "a.txt" = some [] ∧
      (DownloadHandler wd2 (.fresh false) "a.txt").2.status = some 200 ∧
      (DownloadHandler wd2 (.fresh false) "a.txt").2.body = [] := by
  have hj : decodeAddressBody addressBody = some ⟨":9003"⟩ := if_pos rfl
  have hadd : AddServerHandlerInt64 decodeAddressBody fullWorld (.fresh false)
      ⟨"POST", some addressBody⟩
      = (⟨Service.IncApiRequestsCount ⟨[], [":9003"], minInt64⟩ "POST" "/addServer" "200",
          fullWorld.FilePartsMap⟩, (ResponseWriter.fresh false).WriteHeader 201) := by
    simp only [AddServerHandlerInt64, hj]
    rfl
  rw [hadd]
  exact ⟨by decide, rfl, rfl, _, rfl, rfl, rfl, rfl⟩

/-! ## The exact results read on machine integers -/

/-- On zero nodes `splitFile` on machine integers panics on the division as
the exact one does. -/
theorem splitFileInt64_zero_nodes (s : Service) (b : List Byte)
    (h0 : s.currentNumStorageServers = 0) :
    s.splitFileInt64 b = .error .integerDivideByZero := by
  unfold Service.splitFileInt64 goDivInt64
  rw [h0]
  rfl

/-- A file that fits its layout cannot make `len + n - 1` overflow: with
`(n - 1) * ceil(len / n) ≤ len` either the file is empty or `n ≤ len + 1`, and
no slice has `2 ^ 62` bytes. -/
theorem fits_no_overflow (len n : Nat) (h1 : 1 ≤ n) (hn : (n : Int) ≤ maxInt64)
    (hlen : (len : Int) ≤ 4611686018427387903)
    (hfit : (n - 1) * partSizeNat len n ≤ len) :
    (len : Int) + (n : Int) - 1 ≤ maxInt64 := by
  unfold maxInt64 at *
  rcases Nat.eq_zero_or_pos len with h0 | hpos
  · omega
  · have hp := partSizeNat_pos len n h1 hpos
    have : (n - 1) * 1 ≤ (n - 1) * partSizeNat len n := Nat.mul_le_mul_left _ hp
    omega

/-- The conditional round trip on machine integers, for every file a Go slice
can hold: when `(n - 1) * ceil(len / n) ≤ len` the code returns `n` parts and
`assembleFile` of them is the file. -/
theorem splitFileInt64_assembleFile_of_fits (s : Service) (b : List Byte) (n : Nat)
    (hn : s.currentNumStorageServers = (n : Int)) (h1 : 1 ≤ n)
    (hInt : (n : Int) ≤ maxInt64) (hlen : (b.length : Int) ≤ 4611686018427387903)
    (hfit : (n - 1) * partSizeNat b.length n ≤ b.length) :
    ∃ parts, s.splitFileInt64 b = .ok parts ∧ parts.length = n ∧
      s.assembleFile parts = b := by
  have hsum := fits_no_overflow b.length n h1 hInt hlen hfit
  rw [splitFileInt64_eq s b (by omega) (by rw [hn]; exact hInt) (by rw [hn]; exact hsum),
    splitFile_of_fits s b n hn h1 hfit]
  exact ⟨_, rfl, length_partsFrom _ _ _ _, assembleFile_partsFrom s b n h1⟩

end ChunkVault
